import Mathlib

/-!
# Verification of the Invio invoice totals engine

Shallow embedding of the two totals functions of the Invio repository:

* `calculateInvoiceTotals`  (backend/src/database/init.ts) — uniform tax mode;
* `calculatePerLineTotals`  (invoice controller) — per-line tax mode.

JavaScript numbers are modelled by `Option ℚ` at the input boundary
(`none` stands for `NaN` / a non-numeric value, mirroring `Number(x) || 0`)
and by `ℚ` inside the computation.  `Math.round` is `⌊x + 1/2⌋`
(round half toward +∞), exactly JS semantics on finite values.
-/

/-- `Number(x) || 0`: a JS numeric input; `none` models `NaN`/non-numeric. -/
def toNum (x : Option ℚ) : ℚ := x.getD 0

/-- JS `Math.round`: nearest integer, halves toward +∞, i.e. `⌊x + 1/2⌋`. -/
def jsRound (q : ℚ) : ℤ := ⌊q + 1/2⌋

/-- The source's `r2`: `(n) => Math.round(n * 100) / 100`. -/
def r2 (n : ℚ) : ℚ := (jsRound (n * 100) : ℚ) / 100

/-- A whole number of cents: an exact multiple of `1/100`. -/
def Cent (q : ℚ) : Prop := ∃ k : ℤ, q = (k : ℚ) / 100

/-- The `roundingMode` enum: `"line" | "total"`. -/
inductive RoundingMode where
  | line : RoundingMode
  | total : RoundingMode
deriving DecidableEq, Repr

/-- `LineTaxInput` from the invoice controller. -/
structure LineTaxInput where
  percent : Option ℚ
  taxDefinitionId : Option String
  code : Option String
  included : Option Bool
  note : Option String
deriving DecidableEq, Repr

/-- `ItemInput` from the invoice controller.  The uniform engine receives the
same records and (by TS structural typing) reads only `quantity`/`unitPrice`. -/
structure ItemInput where
  description : String
  quantity : Option ℚ
  unitPrice : Option ℚ
  notes : Option String
  taxes : Option (List LineTaxInput)
deriving DecidableEq, Repr

/-- `CalculatedTotals` returned by `calculateInvoiceTotals`. -/
structure CalculatedTotals where
  subtotal : ℚ
  discountAmount : ℚ
  taxAmount : ℚ
  total : ℚ
deriving DecidableEq, Repr

/-- One entry of `perItem[i].taxes` in the per-line result. -/
structure ItemTaxOut where
  percent : ℚ
  amount : ℚ
  note : Option String
  taxDefinitionId : Option String
deriving DecidableEq, Repr

/-- One entry of `perItem` in the per-line result. -/
structure PerItemOut where
  taxable : ℚ
  taxes : List ItemTaxOut
deriving DecidableEq, Repr

/-- One row of the invoice-level tax `summary`. -/
structure SummaryRow where
  percent : ℚ
  taxable : ℚ
  amount : ℚ
deriving DecidableEq, Repr

/-- The value stored in the `summaryMap` for one rounded rate. -/
structure SummaryAcc where
  taxable : ℚ
  amount : ℚ
deriving DecidableEq, Repr

/-- Insertion-ordered model of the JS `Map<number, {taxable, amount}>`. -/
abbrev SummaryMap := List (ℚ × SummaryAcc)

/-- `summaryMap.get(k) || { taxable: 0, amount: 0 }`. -/
def summaryGet : SummaryMap → ℚ → SummaryAcc
  | [], _ => ⟨0, 0⟩
  | (k, v) :: rest, key => if k = key then v else summaryGet rest key

/-- `summaryMap.set(k, v)`: update in place if the key exists (JS `Map.set`
keeps the original insertion position), else append. -/
def summarySet : SummaryMap → ℚ → SummaryAcc → SummaryMap
  | [], key, v => [(key, v)]
  | (k, v') :: rest, key, v =>
      if k = key then (key, v) :: rest else (k, v') :: summarySet rest key v

/-- `PerLineCalc` returned by `calculatePerLineTotals`. -/
structure PerLineCalc where
  subtotal : ℚ
  discountAmount : ℚ
  taxAmount : ℚ
  total : ℚ
  perItem : List PerItemOut
  summary : List SummaryRow
deriving DecidableEq, Repr

/-- A line's gross amount: `(Number(quantity) || 0) * (Number(unitPrice) || 0)`. -/
def lineGross (it : ItemInput) : ℚ := toNum it.quantity * toNum it.unitPrice

/-- `items.map(it => (Number(it.quantity) || 0) * (Number(it.unitPrice) || 0))`. -/
def lineGrossesOf (items : List ItemInput) : List ℚ := items.map lineGross

/-- `lineGrosses.reduce((a, b) => a + b, 0)` — the unrounded subtotal. -/
def subtotalOf (items : List ItemInput) : ℚ := (lineGrossesOf items).foldl (· + ·) 0

/-- The effective discount, shared verbatim by both engines:
`Math.min(Math.max(discountPercentage > 0 ? subtotal * (discountPercentage / 100)
: (Number(discountAmount) || 0), 0), subtotal)`. -/
def finalDiscountOf (subtotal discountPercentage : ℚ) (discountAmount : Option ℚ) : ℚ :=
  min (max (if 0 < discountPercentage then subtotal * (discountPercentage / 100)
            else toNum discountAmount) 0) subtotal

/-- The `lineGrosses.map((g, idx) => ...)` discount distribution, with the
running `distributed` accumulator made explicit.  The last line gets
`r2(finalDiscount - distributed)`; every earlier line gets its rounded
proportional share. -/
def lineDiscAux (finalDiscount subtotal distributed : ℚ) : List ℚ → List ℚ
  | [] => []
  | [_] => [r2 (finalDiscount - distributed)]
  | g :: rest =>
      let d := r2 (finalDiscount * (g / subtotal))
      d :: lineDiscAux finalDiscount subtotal (distributed + d) rest

/-- The uniform engine's per-line discounts (used only when `subtotal > 0`). -/
def lineDiscountsOf (finalDiscount subtotal : ℚ) (gs : List ℚ) : List ℚ :=
  lineDiscAux finalDiscount subtotal 0 gs

/-- The per-line engine's discount distribution: every line yields `0` when
`subtotal === 0`, otherwise identical to `lineDiscountsOf`. -/
def perLineDiscountsOf (finalDiscount subtotal : ℚ) (gs : List ℚ) : List ℚ :=
  if subtotal = 0 then gs.map (fun _ => 0) else lineDiscAux finalDiscount subtotal 0 gs

/-- One iteration of the uniform engine's per-line loop, accumulating
`(sumTax, sumTotal)` over a `(gross, lineDiscount)` pair. -/
def uniformLineStep (rate : ℚ) (pricesIncludeTax : Bool) (acc : ℚ × ℚ) (gd : ℚ × ℚ) :
    ℚ × ℚ :=
  let afterDiscount := max 0 (gd.1 - gd.2)
  if pricesIncludeTax then
    let net := if 0 < rate then afterDiscount / (1 + rate) else afterDiscount
    (acc.1 + r2 (afterDiscount - net), acc.2 + r2 afterDiscount)
  else
    let tax := afterDiscount * rate
    (acc.1 + r2 tax, acc.2 + r2 (afterDiscount + r2 tax))

/-- `calculateInvoiceTotals` (backend/src/database/init.ts, uniform tax mode). -/
def calculateInvoiceTotals (items : List ItemInput) (discountPercentage : ℚ)
    (discountAmount : Option ℚ) (taxRate : Option ℚ) (pricesIncludeTax : Bool)
    (roundingMode : RoundingMode) : CalculatedTotals :=
  let rate := max 0 (toNum taxRate) / 100
  let lineGrosses := lineGrossesOf items
  let subtotal := lineGrosses.foldl (· + ·) 0
  let finalDiscountAmount := finalDiscountOf subtotal discountPercentage discountAmount
  let tt : ℚ × ℚ :=
    if roundingMode = RoundingMode.line ∧ 0 < subtotal then
      let lineDiscounts := lineDiscountsOf finalDiscountAmount subtotal lineGrosses
      let sums := (lineGrosses.zip lineDiscounts).foldl
        (uniformLineStep rate pricesIncludeTax) (0, 0)
      (r2 sums.1, r2 sums.2)
    else
      let afterDiscount := subtotal - finalDiscountAmount
      if pricesIncludeTax then
        let net := if 0 < rate then afterDiscount / (1 + rate) else afterDiscount
        (r2 (afterDiscount - net), r2 afterDiscount)
      else
        let taxAmount := r2 (afterDiscount * rate)
        (taxAmount, r2 (afterDiscount + taxAmount))
  { subtotal := r2 subtotal, discountAmount := r2 finalDiscountAmount,
    taxAmount := r2 tt.1, total := r2 tt.2 }

/-- The `for (const t of taxes)` loop: builds `itemTaxes` in order while
updating the summary map. -/
def taxLoop (net : ℚ) : SummaryMap → List LineTaxInput → List ItemTaxOut × SummaryMap
  | m, [] => ([], m)
  | m, t :: ts =>
      let p := toNum t.percent / 100
      let amt := r2 (net * p)
      let s := summaryGet m (r2 (p * 100))
      let m1 := summarySet m (r2 (p * 100)) ⟨r2 (s.taxable + net), r2 (s.amount + amt)⟩
      let rest := taxLoop net m1 ts
      (⟨r2 (p * 100), amt, t.note, t.taxDefinitionId⟩ :: rest.1, rest.2)

/-- The per-line engine's main `for (let i = 0; ...)` loop over
`(item, gross, lineDiscount)` triples, threading `taxAmount`, `total` and the
summary map and emitting `perItem` entries in order. -/
def perLineLoop (pricesIncludeTax : Bool) :
    ℚ → ℚ → SummaryMap → List (ItemInput × ℚ × ℚ) →
    List PerItemOut × ℚ × ℚ × SummaryMap
  | taxAmount, total, m, [] => ([], taxAmount, total, m)
  | taxAmount, total, m, (it, gross, disc) :: rest =>
      let afterDiscount := max 0 (gross - disc)
      let taxes := it.taxes.getD []
      let rateSum := (taxes.foldl (fun s t => s + toNum t.percent) 0) / 100
      let net := if pricesIncludeTax ∧ 0 < rateSum then afterDiscount / (1 + rateSum)
                 else afterDiscount
      let tl := taxLoop net m taxes
      let itemTaxSum := r2 (tl.1.foldl (fun a b => a + b.amount) 0)
      let total1 := if pricesIncludeTax then r2 (total + afterDiscount)
                    else r2 (total + net + itemTaxSum)
      let taxAmount1 := r2 (taxAmount + itemTaxSum)
      let restOut := perLineLoop pricesIncludeTax taxAmount1 total1 tl.2 rest
      (⟨r2 net, tl.1⟩ :: restOut.1, restOut.2.1, restOut.2.2.1, restOut.2.2.2)

/-- The summary sort order: `(a, b) => a.percent - b.percent` (ascending). -/
def rowLE (a b : SummaryRow) : Prop := a.percent ≤ b.percent

instance : DecidableRel rowLE := fun a b =>
  inferInstanceAs (Decidable (a.percent ≤ b.percent))

instance : IsTotal SummaryRow rowLE := ⟨fun a b => le_total a.percent b.percent⟩

instance : IsTrans SummaryRow rowLE := ⟨fun _ _ _ hab hbc => le_trans hab hbc⟩

/-- `calculatePerLineTotals` (invoice controller, per-line tax mode).
The `_roundingMode` argument is accepted and ignored, exactly as in the
source. -/
def calculatePerLineTotals (items : List ItemInput) (discountPercentage : ℚ)
    (discountAmount : Option ℚ) (pricesIncludeTax : Bool)
    (_roundingMode : RoundingMode) : PerLineCalc :=
  let lineGrosses := lineGrossesOf items
  let subtotal := lineGrosses.foldl (· + ·) 0
  let finalDiscountAmount := finalDiscountOf subtotal discountPercentage discountAmount
  let lineDiscounts := perLineDiscountsOf finalDiscountAmount subtotal lineGrosses
  let st := perLineLoop pricesIncludeTax 0 0 [] (items.zip (lineGrosses.zip lineDiscounts))
  let summary := List.insertionSort rowLE
    (st.2.2.2.map fun e => ⟨e.1, r2 e.2.taxable, r2 e.2.amount⟩)
  { subtotal := r2 subtotal, discountAmount := r2 finalDiscountAmount,
    taxAmount := r2 st.2.1, total := r2 st.2.2.1, perItem := st.1, summary := summary }

/-- Replace `NaN`/non-numeric `quantity`/`unitPrice` by the numeric `0` the
engines coerce them to. -/
def sanitizeItem (it : ItemInput) : ItemInput :=
  { it with quantity := some (toNum it.quantity), unitPrice := some (toNum it.unitPrice) }

/-- Modelled from the spec: “round-half-away-from-zero”, the rounding rule the
spec names for currency outputs (`sign(q) * floor(|q| + 1/2)`). -/
def roundHalfAwayFromZero (q : ℚ) : ℤ :=
  if 0 ≤ q then ⌊q + 1/2⌋ else -⌊-q + 1/2⌋

/-- Modelled from the spec: round-half-away-from-zero at 2 decimal places. -/
def specRound2 (q : ℚ) : ℚ := (roundHalfAwayFromZero (q * 100) : ℚ) / 100

/-- The tax contribution of one `(gross, lineDiscount)` pair in the uniform
engine's line-mode loop. -/
def uLineTax (rate : ℚ) (pricesIncludeTax : Bool) (gd : ℚ × ℚ) : ℚ :=
  let afterDiscount := max 0 (gd.1 - gd.2)
  if pricesIncludeTax then
    r2 (afterDiscount - (if 0 < rate then afterDiscount / (1 + rate) else afterDiscount))
  else r2 (afterDiscount * rate)

/-- The total contribution of one `(gross, lineDiscount)` pair in the uniform
engine's line-mode loop. -/
def uLineTotal (rate : ℚ) (pricesIncludeTax : Bool) (gd : ℚ × ℚ) : ℚ :=
  let afterDiscount := max 0 (gd.1 - gd.2)
  if pricesIncludeTax then r2 afterDiscount
  else r2 (afterDiscount + r2 (afterDiscount * rate))

/-- Sum of the `amount` fields stored in the summary map. -/
def mapAmountSum (m : SummaryMap) : ℚ := (m.map fun e => e.2.amount).sum

/-- All `amount` fields stored in the summary map are whole-cent values. -/
def mapCentAmounts (m : SummaryMap) : Prop := ∀ e ∈ m, Cent e.2.amount

/-! ## Arithmetic of `r2` and whole-cent values -/

theorem cent_r2 (x : ℚ) : Cent (r2 x) := ⟨jsRound (x * 100), rfl⟩

theorem cent_zero : Cent 0 := ⟨0, by norm_num⟩

theorem cent_add {a b : ℚ} (ha : Cent a) (hb : Cent b) : Cent (a + b) := by
  obtain ⟨j, rfl⟩ := ha
  obtain ⟨k, rfl⟩ := hb
  exact ⟨j + k, by push_cast; ring⟩

theorem cent_neg {a : ℚ} (ha : Cent a) : Cent (-a) := by
  obtain ⟨j, rfl⟩ := ha
  exact ⟨-j, by push_cast; ring⟩

theorem cent_sub {a b : ℚ} (ha : Cent a) (hb : Cent b) : Cent (a - b) := by
  rw [sub_eq_add_neg]
  exact cent_add ha (cent_neg hb)

theorem r2_of_cent {a : ℚ} (h : Cent a) : r2 a = a := by
  obtain ⟨k, rfl⟩ := h
  unfold r2 jsRound
  have h1 : (k : ℚ) / 100 * 100 + 1 / 2 = 1 / 2 + (k : ℚ) := by ring
  have h2 : ⌊(1 : ℚ) / 2⌋ = 0 := by norm_num
  rw [h1, Int.floor_add_int, h2]
  push_cast
  ring

theorem r2_add_cent (x : ℚ) {c : ℚ} (hc : Cent c) : r2 (x + c) = r2 x + c := by
  obtain ⟨k, rfl⟩ := hc
  unfold r2 jsRound
  have h1 : (x + (k : ℚ) / 100) * 100 + 1 / 2 = x * 100 + 1 / 2 + (k : ℚ) := by ring
  rw [h1, Int.floor_add_int]
  push_cast
  ring

theorem r2_sub_cent (x : ℚ) {c : ℚ} (hc : Cent c) : r2 (x - c) = r2 x - c := by
  rw [sub_eq_add_neg, r2_add_cent x (cent_neg hc), sub_eq_add_neg]

theorem r2_r2 (x : ℚ) : r2 (r2 x) = r2 x := r2_of_cent (cent_r2 x)

theorem r2_zero : r2 0 = 0 := r2_of_cent cent_zero

theorem r2_mono {x y : ℚ} (h : x ≤ y) : r2 x ≤ r2 y := by
  unfold r2 jsRound
  have h1 : x * 100 + 1 / 2 ≤ y * 100 + 1 / 2 := by linarith
  have h2 : (⌊x * 100 + 1 / 2⌋ : ℚ) ≤ (⌊y * 100 + 1 / 2⌋ : ℚ) := by
    exact_mod_cast Int.floor_mono h1
  linarith

theorem r2_nonneg {x : ℚ} (h : 0 ≤ x) : 0 ≤ r2 x := by
  have h1 := r2_mono h
  rwa [r2_zero] at h1

theorem cent_list_sum {l : List ℚ} (h : ∀ x ∈ l, Cent x) : Cent l.sum := by
  induction l with
  | nil => simpa using cent_zero
  | cons a l ih =>
    rw [List.sum_cons]
    exact cent_add (h a (by simp)) (ih fun x hx => h x (by simp [hx]))

/-! ## Folds as sums -/

theorem foldl_add_map {α : Type _} (f : α → ℚ) :
    ∀ (l : List α) (a : ℚ), l.foldl (fun s x => s + f x) a = a + (l.map f).sum := by
  intro l
  induction l with
  | nil => intro a; simp
  | cons x xs ih =>
    intro a
    rw [List.foldl_cons, ih, List.map_cons, List.sum_cons]
    ring

theorem foldl_add_eq (l : List ℚ) (a : ℚ) : l.foldl (· + ·) a = a + l.sum := by
  induction l generalizing a with
  | nil => simp
  | cons x xs ih =>
    rw [List.foldl_cons, ih, List.sum_cons]
    ring

theorem map_sum_split {α : Type _} {f g h : α → ℚ} :
    ∀ {l : List α}, (∀ x ∈ l, f x = g x + h x) →
      (l.map f).sum = (l.map g).sum + (l.map h).sum := by
  intro l
  induction l with
  | nil => simp
  | cons x xs ih =>
    intro hx
    simp only [List.map_cons, List.sum_cons]
    rw [hx x (by simp), ih fun y hy => hx y (by simp [hy])]
    ring

/-! ## The discount distribution -/

theorem lineDiscAux_sum (fd S : ℚ) :
    ∀ (gs : List ℚ) (dist : ℚ), Cent dist → gs ≠ [] →
      (lineDiscAux fd S dist gs).sum = r2 fd - dist := by
  intro gs
  induction gs with
  | nil => intro dist _ h; exact absurd rfl h
  | cons g rest ih =>
    intro dist hdist _
    cases rest with
    | nil =>
      simp only [lineDiscAux, List.sum_cons, List.sum_nil, add_zero]
      exact r2_sub_cent fd hdist
    | cons g2 rest2 =>
      have hd : Cent (dist + r2 (fd * (g / S))) := cent_add hdist (cent_r2 _)
      simp only [lineDiscAux, List.sum_cons]
      rw [ih _ hd (by simp)]
      ring

theorem lineDiscAux_cent (fd S : ℚ) :
    ∀ (gs : List ℚ) (dist : ℚ), ∀ d ∈ lineDiscAux fd S dist gs, Cent d := by
  intro gs
  induction gs with
  | nil => intro dist d hd; simp [lineDiscAux] at hd
  | cons g rest ih =>
    intro dist d hd
    cases rest with
    | nil =>
      simp only [lineDiscAux, List.mem_singleton] at hd
      exact hd ▸ cent_r2 _
    | cons g2 rest2 =>
      simp only [lineDiscAux, List.mem_cons] at hd
      rcases hd with h | h
      · exact h ▸ cent_r2 _
      · exact ih _ d h

theorem lineDiscAux_length (fd S : ℚ) :
    ∀ (gs : List ℚ) (dist : ℚ), (lineDiscAux fd S dist gs).length = gs.length := by
  intro gs
  induction gs with
  | nil => intro dist; rfl
  | cons g rest ih =>
    intro dist
    cases rest with
    | nil => rfl
    | cons g2 rest2 => simp only [lineDiscAux, List.length_cons, ih]

theorem afterDiscount_sum :
    ∀ {gs ds : List ℚ}, List.Forall₂ (fun g d => d ≤ g) gs ds →
      ((gs.zip ds).map fun gd => max 0 (gd.1 - gd.2)).sum = gs.sum - ds.sum := by
  intro gs ds h
  induction h with
  | nil => simp
  | @cons g d gs2 ds2 hgd _ ih =>
    simp only [List.zip_cons_cons, List.map_cons, List.sum_cons, ih]
    rw [max_eq_right (sub_nonneg.mpr hgd)]
    ring

/-! ## The uniform engine's line-mode fold -/

theorem uniformLineStep_eq (rate : ℚ) (pit : Bool) (acc gd : ℚ × ℚ) :
    uniformLineStep rate pit acc gd =
      (acc.1 + uLineTax rate pit gd, acc.2 + uLineTotal rate pit gd) := by
  cases pit <;> simp [uniformLineStep, uLineTax, uLineTotal]

theorem foldl_uniformLineStep (rate : ℚ) (pit : Bool) :
    ∀ (l : List (ℚ × ℚ)) (a b : ℚ),
      l.foldl (uniformLineStep rate pit) (a, b) =
        (a + (l.map (uLineTax rate pit)).sum, b + (l.map (uLineTotal rate pit)).sum) := by
  intro l
  induction l with
  | nil => intro a b; simp
  | cons gd l ih =>
    intro a b
    rw [List.foldl_cons, uniformLineStep_eq, ih]
    simp only [List.map_cons, List.sum_cons, Prod.mk.injEq]
    constructor <;> ring

theorem cent_uLineTax (rate : ℚ) (pit : Bool) (gd : ℚ × ℚ) : Cent (uLineTax rate pit gd) := by
  cases pit <;> simp only [uLineTax] <;> exact cent_r2 _

theorem uLineTotal_incl (rate : ℚ) {gd : ℚ × ℚ} (h : Cent (max 0 (gd.1 - gd.2))) :
    uLineTotal rate true gd = max 0 (gd.1 - gd.2) := by
  simp only [uLineTotal, if_pos trivial]
  exact r2_of_cent h

theorem uLineTotal_excl (rate : ℚ) {gd : ℚ × ℚ} (h : Cent (max 0 (gd.1 - gd.2))) :
    uLineTotal rate false gd = max 0 (gd.1 - gd.2) + uLineTax rate false gd := by
  simp only [uLineTotal, uLineTax, Bool.false_eq_true, if_false]
  exact r2_of_cent (cent_add h (cent_r2 _))

/-! ## The summary map -/

theorem summaryGet_cent {m : SummaryMap} (h : mapCentAmounts m) (k : ℚ) :
    Cent (summaryGet m k).amount := by
  induction m with
  | nil => simpa [summaryGet] using cent_zero
  | cons e rest ih =>
    obtain ⟨k', v⟩ := e
    simp only [summaryGet]
    by_cases hk : k' = k
    · rw [if_pos hk]; exact h (k', v) (by simp)
    · rw [if_neg hk]; exact ih fun e he => h e (by simp [he])

theorem mapAmountSum_summarySet (m : SummaryMap) (k : ℚ) (v : SummaryAcc) :
    mapAmountSum (summarySet m k v) =
      mapAmountSum m - (summaryGet m k).amount + v.amount := by
  induction m with
  | nil => simp [summarySet, summaryGet, mapAmountSum]
  | cons e rest ih =>
    obtain ⟨k', v'⟩ := e
    by_cases hk : k' = k
    · simp only [summarySet, summaryGet, if_pos hk, mapAmountSum, List.map_cons,
        List.sum_cons]
      ring
    · simp only [summarySet, summaryGet, if_neg hk, mapAmountSum, List.map_cons,
        List.sum_cons] at ih ⊢
      rw [ih]
      ring

theorem mapCentAmounts_summarySet {m : SummaryMap} {v : SummaryAcc}
    (h : mapCentAmounts m) (hv : Cent v.amount) (k : ℚ) :
    mapCentAmounts (summarySet m k v) := by
  induction m with
  | nil =>
    intro e he
    simp only [summarySet, List.mem_singleton] at he
    rw [he]
    exact hv
  | cons e0 rest ih =>
    obtain ⟨k', v'⟩ := e0
    intro e he
    by_cases hk : k' = k
    · simp only [summarySet, if_pos hk, List.mem_cons] at he
      rcases he with rfl | he
      · exact hv
      · exact h e (by simp [he])
    · simp only [summarySet, if_neg hk, List.mem_cons] at he
      rcases he with rfl | he
      · exact h (k', v') (by simp)
      · exact ih (fun e2 he2 => h e2 (by simp [he2])) e he

theorem mem_keys_summarySet {m : SummaryMap} {k a : ℚ} {v : SummaryAcc}
    (h : a ∈ (summarySet m k v).map Prod.fst) : a ∈ m.map Prod.fst ∨ a = k := by
  induction m with
  | nil => simpa [summarySet] using h
  | cons e rest ih =>
    obtain ⟨k', v'⟩ := e
    by_cases hk : k' = k
    · simp only [summarySet, if_pos hk, List.map_cons, List.mem_cons] at h
      rcases h with rfl | h
      · exact Or.inr rfl
      · exact Or.inl (by subst hk; simp [h])
    · simp only [summarySet, if_neg hk, List.map_cons, List.mem_cons] at h
      rcases h with rfl | h
      · exact Or.inl (by simp)
      · rcases ih h with h2 | h2
        · exact Or.inl (by simp [h2])
        · exact Or.inr h2

theorem nodup_keys_summarySet {m : SummaryMap} (h : (m.map Prod.fst).Nodup)
    (k : ℚ) (v : SummaryAcc) : ((summarySet m k v).map Prod.fst).Nodup := by
  induction m with
  | nil => simp [summarySet]
  | cons e rest ih =>
    obtain ⟨k', v'⟩ := e
    simp only [List.map_cons, List.nodup_cons] at h
    by_cases hk : k' = k
    · simp only [summarySet, if_pos hk, List.map_cons, List.nodup_cons]
      exact ⟨hk ▸ h.1, h.2⟩
    · simp only [summarySet, if_neg hk, List.map_cons, List.nodup_cons]
      refine ⟨fun hmem => ?_, ih h.2⟩
      rcases mem_keys_summarySet hmem with h2 | h2
      · exact h.1 h2
      · exact hk h2

/-! ## The per-line engine's loops -/

theorem taxLoop_spec (net : ℚ) :
    ∀ (ts : List LineTaxInput) (m : SummaryMap), mapCentAmounts m →
      mapCentAmounts (taxLoop net m ts).2 ∧
      (∀ o ∈ (taxLoop net m ts).1, Cent o.amount) ∧
      mapAmountSum (taxLoop net m ts).2
        = mapAmountSum m + ((taxLoop net m ts).1.map ItemTaxOut.amount).sum ∧
      ((m.map Prod.fst).Nodup → ((taxLoop net m ts).2.map Prod.fst).Nodup) := by
  intro ts
  induction ts with
  | nil =>
    intro m hm
    exact ⟨hm, by simp [taxLoop], by simp [taxLoop], fun h => h⟩
  | cons t ts ih =>
    intro m hm
    simp only [taxLoop]
    set key := r2 (toNum t.percent / 100 * 100) with hkey
    set amt := r2 (net * (toNum t.percent / 100)) with hamt
    set v : SummaryAcc := ⟨r2 ((summaryGet m key).taxable + net), r2 ((summaryGet m key).amount + amt)⟩ with hv
    set m1 := summarySet m key v with hm1def
    have hs : Cent (summaryGet m key).amount := summaryGet_cent hm key
    have hcamt : Cent amt := by rw [hamt]; exact cent_r2 _
    have hcv : Cent v.amount := by rw [hv]; exact cent_r2 _
    have hvamt : v.amount = (summaryGet m key).amount + amt := by
      rw [hv]
      exact r2_of_cent (cent_add hs hcamt)
    obtain ⟨h1, h2, h3, h4⟩ := ih m1 (mapCentAmounts_summarySet hm hcv key)
    refine ⟨h1, ?_, ?_, ?_⟩
    · intro o ho
      rcases List.mem_cons.mp ho with rfl | ho
      · exact hcamt
      · exact h2 o ho
    · rw [List.map_cons, List.sum_cons, h3, hm1def, mapAmountSum_summarySet, hvamt]
      dsimp only
      ring
    · intro hnd
      exact h4 (by rw [hm1def]; exact nodup_keys_summarySet hnd key v)

theorem perLineLoop_spec (pit : Bool) :
    ∀ (l : List (ItemInput × ℚ × ℚ)) (ta tt : ℚ) (m : SummaryMap),
      mapCentAmounts m → Cent ta →
      mapCentAmounts (perLineLoop pit ta tt m l).2.2.2 ∧
      Cent (perLineLoop pit ta tt m l).2.1 ∧
      ((perLineLoop pit ta tt m l).1.map fun pi => (pi.taxes.map ItemTaxOut.amount).sum).sum
        = (perLineLoop pit ta tt m l).2.1 - ta ∧
      mapAmountSum (perLineLoop pit ta tt m l).2.2.2
        = mapAmountSum m + ((perLineLoop pit ta tt m l).2.1 - ta) ∧
      ((m.map Prod.fst).Nodup → ((perLineLoop pit ta tt m l).2.2.2.map Prod.fst).Nodup) ∧
      (∀ pi ∈ (perLineLoop pit ta tt m l).1, Cent pi.taxable ∧ ∀ tx ∈ pi.taxes, Cent tx.amount) := by
  intro l
  induction l with
  | nil =>
    intro ta tt m hm hta
    exact ⟨hm, hta, by simp [perLineLoop], by simp [perLineLoop], fun h => h, by simp [perLineLoop]⟩
  | cons x rest ih =>
    obtain ⟨it, gross, disc⟩ := x
    intro ta tt m hm hta
    simp only [perLineLoop]
    set ad := max 0 (gross - disc) with had
    set rateSum := (it.taxes.getD []).foldl (fun s t => s + toNum t.percent) 0 / 100 with hrs
    set net := if pit ∧ 0 < rateSum then ad / (1 + rateSum) else ad with hnet
    set tl := taxLoop net m (it.taxes.getD []) with htl
    obtain ⟨g1, g2, g3, g4⟩ := taxLoop_spec net (it.taxes.getD []) m hm
    rw [← htl] at g1 g2 g3 g4
    set itemTaxSum := r2 (tl.1.foldl (fun a b => a + b.amount) 0) with hits
    have hcsum : Cent (tl.1.map ItemTaxOut.amount).sum := by
      refine cent_list_sum fun y hy => ?_
      rcases List.mem_map.mp hy with ⟨o, ho, rfl⟩
      exact g2 o ho
    have hitseq : itemTaxSum = (tl.1.map ItemTaxOut.amount).sum := by
      rw [hits, foldl_add_map ItemTaxOut.amount tl.1 0, zero_add]
      exact r2_of_cent hcsum
    set total1 := if pit then r2 (tt + ad) else r2 (tt + net + itemTaxSum) with htot1
    set taxAmount1 := r2 (ta + itemTaxSum) with hta1
    have hta1eq : taxAmount1 = ta + itemTaxSum := by
      rw [hta1]
      exact r2_of_cent (cent_add hta (hitseq ▸ hcsum))
    have hcta1 : Cent taxAmount1 := by rw [hta1]; exact cent_r2 _
    obtain ⟨i1, i2, i3, i4, i5, i6⟩ := ih taxAmount1 total1 tl.2 g1 hcta1
    refine ⟨i1, i2, ?_, ?_, ?_, ?_⟩
    · simp only [List.map_cons, List.sum_cons]
      rw [i3, ← hitseq, hta1eq]
      ring
    · rw [i4, g3, ← hitseq, hta1eq]
      ring
    · intro hnd
      exact i5 (g4 hnd)
    · intro pi hpi
      rcases List.mem_cons.mp hpi with rfl | hpi
      · exact ⟨cent_r2 _, fun tx htx => g2 tx htx⟩
      · exact i6 pi hpi

theorem perLineLoop_total (pit : Bool) :
    ∀ (l : List (ItemInput × ℚ × ℚ)) (ta tt : ℚ) (m : SummaryMap),
      mapCentAmounts m → Cent ta → Cent tt →
      (∀ x ∈ l, Cent (max 0 (x.2.1 - x.2.2))) →
      Cent (perLineLoop pit ta tt m l).2.2.1 ∧
      (perLineLoop pit ta tt m l).2.2.1
        = tt + (l.map fun x => max 0 (x.2.1 - x.2.2)).sum +
          (if pit then 0 else (perLineLoop pit ta tt m l).2.1 - ta) := by
  intro l
  induction l with
  | nil =>
    intro ta tt m hm hta htt _
    refine ⟨htt, ?_⟩
    cases pit <;> simp [perLineLoop]
  | cons x rest ih =>
    obtain ⟨it, gross, disc⟩ := x
    intro ta tt m hm hta htt hads
    have hcad : Cent (max 0 (gross - disc)) := hads (it, gross, disc) (by simp)
    have hads2 : ∀ y ∈ rest, Cent (max 0 (y.2.1 - y.2.2)) := fun y hy => hads y (by simp [hy])
    cases pit with
    | true =>
      simp only [perLineLoop, true_and, if_true, List.map_cons, List.sum_cons]
      set rateSum := List.foldl (fun s t => s + toNum t.percent) 0 (it.taxes.getD []) / 100 with hrs
      set net := if 0 < rateSum then (0 ⊔ (gross - disc)) / (1 + rateSum) else 0 ⊔ (gross - disc) with hnet
      set tl := taxLoop net m (it.taxes.getD []) with htl
      obtain ⟨g1, g2, g3, g4⟩ := taxLoop_spec net (it.taxes.getD []) m hm
      rw [← htl] at g1 g2 g3 g4
      set its := r2 (List.foldl (fun a b => a + b.amount) 0 tl.1) with hits
      have hcsum : Cent (tl.1.map ItemTaxOut.amount).sum := by
        refine cent_list_sum fun y hy => ?_
        rcases List.mem_map.mp hy with ⟨o, ho, rfl⟩
        exact g2 o ho
      have hcits : Cent its := by rw [hits]; exact cent_r2 _
      set ta1 := r2 (ta + its) with hta1
      have hcta1 : Cent ta1 := by rw [hta1]; exact cent_r2 _
      set tt1 := r2 (tt + 0 ⊔ (gross - disc)) with htt1
      have htt1eq : tt1 = tt + (0 ⊔ (gross - disc)) := by
        rw [htt1]
        exact r2_of_cent (cent_add htt hcad)
      have hctt1 : Cent tt1 := by rw [htt1]; exact cent_r2 _
      obtain ⟨j1, j2⟩ := ih ta1 tt1 tl.2 g1 hcta1 hctt1 hads2
      refine ⟨j1, ?_⟩
      simp only [if_true] at j2 ⊢
      rw [j2, htt1eq]
      ring
    | false =>
      simp only [perLineLoop, Bool.false_eq_true, false_and, if_false, List.map_cons,
        List.sum_cons]
      set tl := taxLoop (0 ⊔ (gross - disc)) m (it.taxes.getD []) with htl
      obtain ⟨g1, g2, g3, g4⟩ := taxLoop_spec (0 ⊔ (gross - disc)) (it.taxes.getD []) m hm
      rw [← htl] at g1 g2 g3 g4
      set its := r2 (List.foldl (fun a b => a + b.amount) 0 tl.1) with hits
      have hcsum : Cent (tl.1.map ItemTaxOut.amount).sum := by
        refine cent_list_sum fun y hy => ?_
        rcases List.mem_map.mp hy with ⟨o, ho, rfl⟩
        exact g2 o ho
      have hitseq : its = (tl.1.map ItemTaxOut.amount).sum := by
        rw [hits, foldl_add_map ItemTaxOut.amount tl.1 0, zero_add]
        exact r2_of_cent hcsum
      have hcits : Cent its := by rw [hits]; exact cent_r2 _
      set ta1 := r2 (ta + its) with hta1
      have hta1eq : ta1 = ta + its := by
        rw [hta1]
        exact r2_of_cent (cent_add hta hcits)
      have hcta1 : Cent ta1 := by rw [hta1]; exact cent_r2 _
      set tt1 := r2 (tt + (0 ⊔ (gross - disc)) + its) with htt1
      have htt1eq : tt1 = tt + (0 ⊔ (gross - disc)) + its := by
        rw [htt1]
        exact r2_of_cent (cent_add (cent_add htt hcad) hcits)
      have hctt1 : Cent tt1 := by rw [htt1]; exact cent_r2 _
      obtain ⟨j1, j2⟩ := ih ta1 tt1 tl.2 g1 hcta1 hctt1 hads2
      refine ⟨j1, ?_⟩
      simp only [Bool.false_eq_true, if_false] at j2 ⊢
      rw [j2, htt1eq, hta1eq]
      ring

/-! ## The effective discount -/

theorem finalDiscountOf_le (S dp : ℚ) (dA : Option ℚ) : finalDiscountOf S dp dA ≤ S :=
  min_le_right _ _

theorem finalDiscountOf_nonneg (S dp : ℚ) (dA : Option ℚ) (h : 0 ≤ S) :
    0 ≤ finalDiscountOf S dp dA :=
  le_min (le_max_right _ 0) h

theorem finalDiscountOf_subtotal_zero (dp : ℚ) (dA : Option ℚ) :
    finalDiscountOf 0 dp dA = 0 :=
  min_eq_right (le_max_right _ 0)

/-! ## Small facts used when evaluating the engines -/

theorem total_eq_line_iff : RoundingMode.total = RoundingMode.line ↔ False := by decide

/-- **C2** (amended): `discountAmount ≤ subtotal` always holds, and
`0 ≤ discountAmount` holds whenever the unrounded subtotal is nonnegative;
a negative subtotal forces `discountAmount = r2 subtotal < 0`. -/
theorem claim_C2_amended :
    (∀ (items : List ItemInput) (dp : ℚ) (dA t : Option ℚ) (pit : Bool) (rm : RoundingMode),
       (calculateInvoiceTotals items dp dA t pit rm).discountAmount
           ≤ (calculateInvoiceTotals items dp dA t pit rm).subtotal ∧
       (0 ≤ subtotalOf items →
         0 ≤ (calculateInvoiceTotals items dp dA t pit rm).discountAmount)) ∧
    (∀ (items : List ItemInput) (dp : ℚ) (dA : Option ℚ) (pit : Bool) (rm : RoundingMode),
       (calculatePerLineTotals items dp dA pit rm).discountAmount
           ≤ (calculatePerLineTotals items dp dA pit rm).subtotal ∧
       (0 ≤ subtotalOf items →
         0 ≤ (calculatePerLineTotals items dp dA pit rm).discountAmount)) := by
  constructor
  · intro items dp dA t pit rm
    simp only [calculateInvoiceTotals, subtotalOf]
    exact ⟨r2_mono (finalDiscountOf_le _ dp dA),
      fun h => r2_nonneg (finalDiscountOf_nonneg _ dp dA h)⟩
  · intro items dp dA pit rm
    simp only [calculatePerLineTotals, subtotalOf]
    exact ⟨r2_mono (finalDiscountOf_le _ dp dA),
      fun h => r2_nonneg (finalDiscountOf_nonneg _ dp dA h)⟩

/-- **C2** (counterexample): with a single line of gross `-1` both engines
return `discountAmount = -1 < 0`, refuting `0 ≤ discountAmount` for arbitrary
line items. -/
theorem claim_C2_counterexample :
    (calculateInvoiceTotals [⟨"", some 1, some (-1), none, none⟩] 0 (some 0) (some 0)
        false RoundingMode.line).discountAmount = -1 ∧
    (calculatePerLineTotals [⟨"", some 1, some (-1), none, none⟩] 0 (some 0)
        false RoundingMode.line).discountAmount = -1 ∧
    (-1 : ℚ) < 0 := by
  refine ⟨?_, ?_, by norm_num⟩ <;>
    norm_num [calculateInvoiceTotals, calculatePerLineTotals, lineGrossesOf, lineGross,
      toNum, finalDiscountOf, perLineDiscountsOf, lineDiscountsOf, lineDiscAux,
      uniformLineStep, perLineLoop, taxLoop, summaryGet, summarySet, r2, jsRound,
      total_eq_line_iff]

/-- **C2** (witness): a nonnegative-subtotal instance of `claim_C2_amended`. -/
theorem claim_C2_witness :
    0 ≤ subtotalOf [⟨"", some 2, some 50, none, none⟩] ∧
    0 ≤ (calculateInvoiceTotals [⟨"", some 2, some 50, none, none⟩] 0 (some 0) (some 10)
        false RoundingMode.line).discountAmount := by
  have h : 0 ≤ subtotalOf [⟨"", some 2, some 50, none, none⟩] := by
    norm_num [subtotalOf, lineGrossesOf, lineGross, toNum]
  exact ⟨h, (claim_C2_amended.1 [⟨"", some 2, some 50, none, none⟩] 0 (some 0) (some 10)
    false RoundingMode.line).2 h⟩

/-- **C4**: for `roundingMode = "line"` and a non-empty item list, the per-line
discount allocations (rounded shares, last line taking the residual) sum
exactly to the `discountAmount` the engine returns — for the uniform engine
whenever its line branch runs (`subtotal > 0`), and for the per-line engine
unconditionally. -/
theorem claim_C4 :
    (∀ (items : List ItemInput) (dp : ℚ) (dA t : Option ℚ) (pit : Bool),
       items ≠ [] → 0 < subtotalOf items →
       (lineDiscountsOf (finalDiscountOf (subtotalOf items) dp dA) (subtotalOf items)
           (lineGrossesOf items)).sum
         = (calculateInvoiceTotals items dp dA t pit RoundingMode.line).discountAmount) ∧
    (∀ (items : List ItemInput) (dp : ℚ) (dA : Option ℚ) (pit : Bool) (rm : RoundingMode),
       items ≠ [] →
       (perLineDiscountsOf (finalDiscountOf (subtotalOf items) dp dA) (subtotalOf items)
           (lineGrossesOf items)).sum
         = (calculatePerLineTotals items dp dA pit rm).discountAmount) := by
  constructor
  · intro items dp dA t pit hne _
    have hgs : lineGrossesOf items ≠ [] := by
      intro h
      exact hne (List.map_eq_nil_iff.mp h)
    simp only [calculateInvoiceTotals, subtotalOf, lineDiscountsOf]
    rw [lineDiscAux_sum _ _ _ 0 cent_zero hgs, sub_zero]
  · intro items dp dA pit rm hne
    have hgs : lineGrossesOf items ≠ [] := by
      intro h
      exact hne (List.map_eq_nil_iff.mp h)
    simp only [calculatePerLineTotals, subtotalOf, perLineDiscountsOf]
    by_cases hS : (lineGrossesOf items).foldl (· + ·) 0 = 0
    · rw [if_pos hS, hS, finalDiscountOf_subtotal_zero, r2_zero]
      have hz : ((lineGrossesOf items).map fun _ => (0 : ℚ)).sum = 0 := by simp
      exact hz
    · rw [if_neg hS, lineDiscAux_sum _ _ _ 0 cent_zero hgs, sub_zero]

/-- **C4** (witness): spec scenario 3 — grosses `[60, 40]`, `discountAmount = 10`:
allocations `[6, 4]` sum to the returned discount. -/
theorem claim_C4_witness :
    (lineDiscountsOf
        (finalDiscountOf (subtotalOf [⟨"", some 1, some 60, none, none⟩,
            ⟨"", some 1, some 40, none, none⟩]) 0 (some 10))
        (subtotalOf [⟨"", some 1, some 60, none, none⟩, ⟨"", some 1, some 40, none, none⟩])
        (lineGrossesOf [⟨"", some 1, some 60, none, none⟩,
            ⟨"", some 1, some 40, none, none⟩])).sum
      = (calculateInvoiceTotals [⟨"", some 1, some 60, none, none⟩,
            ⟨"", some 1, some 40, none, none⟩] 0 (some 10) (some 0) false
          RoundingMode.line).discountAmount ∧
    (perLineDiscountsOf
        (finalDiscountOf (subtotalOf [⟨"", some 1, some 60, none, none⟩,
            ⟨"", some 1, some 40, none, none⟩]) 0 (some 10))
        (subtotalOf [⟨"", some 1, some 60, none, none⟩, ⟨"", some 1, some 40, none, none⟩])
        (lineGrossesOf [⟨"", some 1, some 60, none, none⟩,
            ⟨"", some 1, some 40, none, none⟩])).sum
      = (calculatePerLineTotals [⟨"", some 1, some 60, none, none⟩,
            ⟨"", some 1, some 40, none, none⟩] 0 (some 10) false
          RoundingMode.line).discountAmount := by
  constructor
  · exact claim_C4.1 _ 0 (some 10) (some 0) false (by simp)
      (by norm_num [subtotalOf, lineGrossesOf, lineGross, toNum])
  · exact claim_C4.2 _ 0 (some 10) false RoundingMode.line (by simp)

/-- **C7**: `calculatePerLineTotals` ignores its `roundingMode` argument — the
result for `"total"` is identical to the result for `"line"` (and any two
modes agree); the discount distribution is always the proportional
last-line-residual one. -/
theorem claim_C7 (items : List ItemInput) (dp : ℚ) (dA : Option ℚ) (pit : Bool)
    (rm rm' : RoundingMode) :
    calculatePerLineTotals items dp dA pit rm = calculatePerLineTotals items dp dA pit rm' := rfl

/-- **C9**: both engines are pure functions of their arguments: repeated calls
with identical inputs give identical results (the embedding is deterministic
by construction, mirroring the side-effect-free source). -/
theorem claim_C9 :
    (∀ (items : List ItemInput) (dp : ℚ) (dA t : Option ℚ) (pit : Bool) (rm : RoundingMode),
       calculateInvoiceTotals items dp dA t pit rm = calculateInvoiceTotals items dp dA t pit rm) ∧
    (∀ (items : List ItemInput) (dp : ℚ) (dA : Option ℚ) (pit : Bool) (rm : RoundingMode),
       calculatePerLineTotals items dp dA pit rm = calculatePerLineTotals items dp dA pit rm) :=
  ⟨fun _ _ _ _ _ _ => rfl, fun _ _ _ _ _ => rfl⟩

/-- **C10**: the uniform engine clamps a negative or non-numeric `taxRate` to
`0` (`Math.max(0, Number(taxRate) || 0)`), while the per-line engine applies
negative assessment percents as given — a `-10%` line tax yields
`taxAmount = -10`. -/
theorem claim_C10 :
    (∀ (items : List ItemInput) (dp : ℚ) (dA : Option ℚ) (pit : Bool) (rm : RoundingMode)
       (t : ℚ), t < 0 →
       calculateInvoiceTotals items dp dA (some t) pit rm
         = calculateInvoiceTotals items dp dA (some 0) pit rm) ∧
    (∀ (items : List ItemInput) (dp : ℚ) (dA : Option ℚ) (pit : Bool) (rm : RoundingMode),
       calculateInvoiceTotals items dp dA none pit rm
         = calculateInvoiceTotals items dp dA (some 0) pit rm) ∧
    ((calculatePerLineTotals
        [⟨"", some 1, some 100, none, some [⟨some (-10), none, none, none, none⟩]⟩]
        0 (some 0) false RoundingMode.line).taxAmount = -10 ∧ (-10 : ℚ) < 0) := by
  refine ⟨?_, ?_, ?_, by norm_num⟩
  · intro items dp dA pit rm t ht
    simp only [calculateInvoiceTotals, toNum, Option.getD_some]
    rw [max_eq_left ht.le, max_self]
  · intro items dp dA pit rm
    simp only [calculateInvoiceTotals, toNum, Option.getD_some, Option.getD_none]
  · norm_num [calculatePerLineTotals, lineGrossesOf, lineGross, toNum, finalDiscountOf,
      perLineDiscountsOf, lineDiscountsOf, lineDiscAux, perLineLoop, taxLoop, summaryGet,
      summarySet, r2, jsRound, total_eq_line_iff]

/-- **C10** (witness): the clamp equivalence at `taxRate = -5`. -/
theorem claim_C10_witness :
    calculateInvoiceTotals [⟨"", some 2, some 50, none, none⟩] 0 (some 0) (some (-5))
        false RoundingMode.line
      = calculateInvoiceTotals [⟨"", some 2, some 50, none, none⟩] 0 (some 0) (some 0)
        false RoundingMode.line :=
  claim_C10.1 _ 0 (some 0) false RoundingMode.line (-5) (by norm_num)

/-! ## Coercion of non-numeric inputs -/

theorem lineGrossesOf_sanitize (items : List ItemInput) :
    lineGrossesOf (items.map sanitizeItem) = lineGrossesOf items := by
  simp only [lineGrossesOf, List.map_map]
  exact List.map_congr_left fun it _ => rfl

theorem perLineLoop_congr (pit : Bool) :
    ∀ {l l' : List (ItemInput × ℚ × ℚ)},
      List.Forall₂ (fun x y => x.1.taxes = y.1.taxes ∧ x.2 = y.2) l l' →
      ∀ (ta tt : ℚ) (m : SummaryMap),
        perLineLoop pit ta tt m l = perLineLoop pit ta tt m l' := by
  intro l l' h
  induction h with
  | nil => intro ta tt m; rfl
  | @cons x y l2 l2' hxy _ ih =>
    obtain ⟨it, g, d⟩ := x
    obtain ⟨it', g', d'⟩ := y
    obtain ⟨htaxes, hgd⟩ := hxy
    cases hgd
    intro ta tt m
    simp only [perLineLoop] at htaxes ⊢
    rw [htaxes, ih]

theorem zip_sanitize_forall₂ :
    ∀ (items : List ItemInput) (p : List (ℚ × ℚ)),
      List.Forall₂ (fun x y => x.1.taxes = y.1.taxes ∧ x.2 = y.2)
        ((items.map sanitizeItem).zip p) (items.zip p) := by
  intro items
  induction items with
  | nil => intro p; simp
  | cons it its ih =>
    intro p
    cases p with
    | nil => simp
    | cons q ps =>
      simp only [List.map_cons, List.zip_cons_cons]
      exact List.Forall₂.cons ⟨rfl, rfl⟩ (ih ps)

/-- **C3** (amended): both engines are total and coerce `NaN`/non-numeric
`quantity`/`unitPrice` to `0` (`Number(x) || 0`): replacing those fields by a
literal `0` leaves the result unchanged.  Negative quantities, however, are
used as given — they are not coerced to `0`. -/
theorem claim_C3_amended (items : List ItemInput) (dp : ℚ) (dA t : Option ℚ)
    (pit : Bool) (rm : RoundingMode) :
    calculateInvoiceTotals (items.map sanitizeItem) dp dA t pit rm
        = calculateInvoiceTotals items dp dA t pit rm ∧
    calculatePerLineTotals (items.map sanitizeItem) dp dA pit rm
        = calculatePerLineTotals items dp dA pit rm := by
  constructor
  · simp only [calculateInvoiceTotals, lineGrossesOf_sanitize]
  · simp only [calculatePerLineTotals, lineGrossesOf_sanitize]
    rw [perLineLoop_congr pit (zip_sanitize_forall₂ items _) 0 0 []]

/-- **C3** (counterexample): a line with `quantity = -1, unitPrice = 1` is not
treated as `0`: the subtotal comes out `-1`, not the `0` that
"negative quantities are coerced to 0" would give. -/
theorem claim_C3_counterexample :
    (calculateInvoiceTotals [⟨"", some (-1), some 1, none, none⟩] 0 (some 0) (some 0)
        false RoundingMode.total).subtotal = -1 ∧
    (calculateInvoiceTotals [⟨"", some 0, some 1, none, none⟩] 0 (some 0) (some 0)
        false RoundingMode.total).subtotal = 0 ∧
    (-1 : ℚ) < 0 := by
  refine ⟨?_, ?_, by norm_num⟩ <;>
    norm_num [calculateInvoiceTotals, lineGrossesOf, lineGross, toNum, finalDiscountOf,
      lineDiscountsOf, lineDiscAux, uniformLineStep, r2, jsRound, total_eq_line_iff]

/-- **C6**: in per-line mode the invoice-level summary (grouped by rounded rate
across all items, merging tax-definition identities that share a rate) has
amounts summing exactly to `taxAmount`, which itself equals the sum of every
per-item assessment amount; the summary is sorted ascending by rate and has at
most one row per distinct rate. -/
theorem claim_C6 (items : List ItemInput) (dp : ℚ) (dA : Option ℚ) (pit : Bool)
    (rm : RoundingMode) :
    (((calculatePerLineTotals items dp dA pit rm).summary.map SummaryRow.amount).sum
        = (calculatePerLineTotals items dp dA pit rm).taxAmount) ∧
    ((calculatePerLineTotals items dp dA pit rm).taxAmount
        = ((calculatePerLineTotals items dp dA pit rm).perItem.map
            fun pi => (pi.taxes.map ItemTaxOut.amount).sum).sum) ∧
    List.Sorted rowLE (calculatePerLineTotals items dp dA pit rm).summary ∧
    ((calculatePerLineTotals items dp dA pit rm).summary.map SummaryRow.percent).Nodup := by
  simp only [calculatePerLineTotals]
  set gs := lineGrossesOf items with hgs
  set S := gs.foldl (· + ·) 0 with hS
  set fd := finalDiscountOf S dp dA with hfd
  set ds := perLineDiscountsOf fd S gs with hds
  set L := items.zip (gs.zip ds) with hL
  set st := perLineLoop pit 0 0 [] L with hst
  obtain ⟨s1, s2, s3, s4, s5, s6⟩ :=
    perLineLoop_spec pit L 0 0 [] (fun e he => absurd he (List.not_mem_nil e)) cent_zero
  rw [← hst] at s1 s2 s3 s4 s5 s6
  set rows := st.2.2.2.map fun e => (⟨e.1, r2 e.2.taxable, r2 e.2.amount⟩ : SummaryRow)
    with hrows
  have hperm := List.perm_insertionSort rowLE rows
  have hrowsum : (rows.map SummaryRow.amount).sum = st.2.1 := by
    rw [hrows, List.map_map]
    have hcongr : st.2.2.2.map (SummaryRow.amount ∘ fun e => (⟨e.1, r2 e.2.taxable,
        r2 e.2.amount⟩ : SummaryRow)) = st.2.2.2.map fun e => e.2.amount :=
      List.map_congr_left fun e he => r2_of_cent (s1 e he)
    rw [hcongr]
    have h0 : mapAmountSum ([] : SummaryMap) = 0 := rfl
    have h4 := s4
    rw [h0] at h4
    calc (st.2.2.2.map fun e => e.2.amount).sum = mapAmountSum st.2.2.2 := rfl
      _ = st.2.1 := by rw [h4]; ring
  refine ⟨?_, ?_, ?_, ?_⟩
  · rw [(hperm.map SummaryRow.amount).sum_eq, hrowsum, r2_of_cent s2]
  · rw [s3, r2_of_cent s2, sub_zero]
  · exact List.sorted_insertionSort rowLE rows
  · have hkeys : rows.map SummaryRow.percent = st.2.2.2.map Prod.fst := by
      rw [hrows, List.map_map]
      exact List.map_congr_left fun e _ => rfl
    have hnd : (rows.map SummaryRow.percent).Nodup := by
      rw [hkeys]
      exact s5 (by simp)
    exact ((hperm.map SummaryRow.percent).nodup_iff).mpr hnd

/-- **C8** (amended): every currency-valued output of both engines is a whole
multiple of `0.01`; the rounding rule is JS `Math.round` — nearest cent with
half-cent ties toward `+∞` — which agrees with round-half-away-from-zero on
nonnegative arguments (but not on negative ones); the uniform engine rounds
per line in `"line"` mode and at the aggregate in `"total"` mode, while the
per-line engine rounds per line regardless of `roundingMode`. -/
theorem claim_C8_amended :
    (∀ (items : List ItemInput) (dp : ℚ) (dA t : Option ℚ) (pit : Bool) (rm : RoundingMode),
       Cent (calculateInvoiceTotals items dp dA t pit rm).subtotal ∧
       Cent (calculateInvoiceTotals items dp dA t pit rm).discountAmount ∧
       Cent (calculateInvoiceTotals items dp dA t pit rm).taxAmount ∧
       Cent (calculateInvoiceTotals items dp dA t pit rm).total) ∧
    (∀ (items : List ItemInput) (dp : ℚ) (dA : Option ℚ) (pit : Bool) (rm : RoundingMode),
       (Cent (calculatePerLineTotals items dp dA pit rm).subtotal ∧
        Cent (calculatePerLineTotals items dp dA pit rm).discountAmount ∧
        Cent (calculatePerLineTotals items dp dA pit rm).taxAmount ∧
        Cent (calculatePerLineTotals items dp dA pit rm).total) ∧
       (∀ pi ∈ (calculatePerLineTotals items dp dA pit rm).perItem,
          Cent pi.taxable ∧ ∀ tx ∈ pi.taxes, Cent tx.amount) ∧
       (∀ row ∈ (calculatePerLineTotals items dp dA pit rm).summary,
          Cent row.taxable ∧ Cent row.amount)) ∧
    (∀ q : ℚ, 0 ≤ q → r2 q = specRound2 q) ∧
    (∀ (items : List ItemInput) (dp : ℚ) (dA : Option ℚ) (pit : Bool)
       (rm rm' : RoundingMode),
       calculatePerLineTotals items dp dA pit rm
         = calculatePerLineTotals items dp dA pit rm') := by
  refine ⟨?_, ?_, ?_, fun _ _ _ _ _ _ => rfl⟩
  · intro items dp dA t pit rm
    simp only [calculateInvoiceTotals]
    exact ⟨cent_r2 _, cent_r2 _, cent_r2 _, cent_r2 _⟩
  · intro items dp dA pit rm
    simp only [calculatePerLineTotals]
    set gs := lineGrossesOf items with hgs
    set S := gs.foldl (· + ·) 0 with hS
    set fd := finalDiscountOf S dp dA with hfd
    set ds := perLineDiscountsOf fd S gs with hds
    set L := items.zip (gs.zip ds) with hL
    set st := perLineLoop pit 0 0 [] L with hst
    obtain ⟨s1, s2, s3, s4, s5, s6⟩ :=
      perLineLoop_spec pit L 0 0 [] (fun e he => absurd he (List.not_mem_nil e)) cent_zero
    rw [← hst] at s1 s2 s3 s4 s5 s6
    refine ⟨⟨cent_r2 _, cent_r2 _, cent_r2 _, cent_r2 _⟩, s6, ?_⟩
    intro row hrow
    have hmem : row ∈ st.2.2.2.map fun e =>
        (⟨e.1, r2 e.2.taxable, r2 e.2.amount⟩ : SummaryRow) :=
      ((List.perm_insertionSort rowLE _).mem_iff).mp hrow
    obtain ⟨e, _, rfl⟩ := List.mem_map.mp hmem
    exact ⟨cent_r2 _, cent_r2 _⟩
  · intro q hq
    unfold r2 specRound2 roundHalfAwayFromZero jsRound
    rw [if_pos (mul_nonneg hq (by norm_num : (0:ℚ) ≤ 100))]

/-- **C8** (counterexample): on `-0.005` the engine rounds to `0.00` while
round-half-away-from-zero gives `-0.01`; and in `"total"` mode the per-line
engine still rounds tax per line (`0.004 + 0.004` gives tax `0`, not the
aggregate rounding `0.01`). -/
theorem claim_C8_counterexample :
    ((calculateInvoiceTotals [⟨"", some 1, some (-1/200), none, none⟩] 0 (some 0)
        (some 0) false RoundingMode.total).subtotal = 0 ∧
     specRound2 (-1/200) = -1/100 ∧ (-1/100 : ℚ) < 0) ∧
    ((calculatePerLineTotals
        [⟨"", some 1, some (1/25), none, some [⟨some 10, none, none, none, none⟩]⟩,
         ⟨"", some 1, some (1/25), none, some [⟨some 10, none, none, none, none⟩]⟩]
        0 (some 0) false RoundingMode.total).taxAmount = 0 ∧
     r2 ((1/25 : ℚ) * (10/100) + (1/25) * (10/100)) = 1/100 ∧ (0 : ℚ) < 1/100) := by
  refine ⟨⟨?_, ?_, by norm_num⟩, ⟨?_, ?_, by norm_num⟩⟩ <;>
    norm_num [calculateInvoiceTotals, calculatePerLineTotals, lineGrossesOf, lineGross,
      toNum, finalDiscountOf, perLineDiscountsOf, lineDiscountsOf, lineDiscAux,
      uniformLineStep, perLineLoop, taxLoop, summaryGet, summarySet, r2, jsRound,
      specRound2, roundHalfAwayFromZero, total_eq_line_iff]

/-- **C8** (witness): a whole-cent output and the nonnegative agreement of the
two rounding rules at `1/2`. -/
theorem claim_C8_witness :
    Cent (calculateInvoiceTotals [⟨"", some 2, some 50, none, none⟩] 0 (some 0) (some 10)
        false RoundingMode.line).subtotal ∧
    (0 : ℚ) ≤ 1/2 ∧ r2 (1/2) = specRound2 (1/2) :=
  ⟨(claim_C8_amended.1 [⟨"", some 2, some 50, none, none⟩] 0 (some 0) (some 10)
      false RoundingMode.line).1,
   by norm_num, claim_C8_amended.2.2.1 (1/2) (by norm_num)⟩

/-- **C5** (amended): with `pricesIncludeTax = true`, a single line of
nonnegative gross `G`, zero discount and `taxRate = t > 0`, the uniform engine
extracts the tax from the gross: `subtotal = r2 G`, `discountAmount = 0`,
`taxAmount = r2 (G - G / (1 + t/100))` and `total = r2 G` — in both rounding
modes. -/
theorem claim_C5_amended (it : ItemInput) (t : ℚ) (rm : RoundingMode)
    (ht : 0 < t) (hG : 0 ≤ lineGross it) :
    (calculateInvoiceTotals [it] 0 (some 0) (some t) true rm).subtotal
        = r2 (lineGross it) ∧
    (calculateInvoiceTotals [it] 0 (some 0) (some t) true rm).discountAmount = 0 ∧
    (calculateInvoiceTotals [it] 0 (some 0) (some t) true rm).taxAmount
        = r2 (lineGross it - lineGross it / (1 + t / 100)) ∧
    (calculateInvoiceTotals [it] 0 (some 0) (some t) true rm).total
        = r2 (lineGross it) := by
  have hfd : finalDiscountOf (lineGross it) 0 (some 0) = 0 := by
    unfold finalDiscountOf
    rw [if_neg (lt_irrefl 0)]
    simp only [toNum, Option.getD_some, max_self]
    exact min_eq_left hG
  have hrt : (0 : ℚ) < t / 100 := by positivity
  simp only [calculateInvoiceTotals, lineGrossesOf, List.map_cons, List.map_nil,
    List.foldl_cons, List.foldl_nil, zero_add, toNum, Option.getD_some,
    max_eq_right ht.le, hfd]
  by_cases hcond : rm = RoundingMode.line ∧ 0 < lineGross it
  · rw [if_pos hcond]
    simp only [lineDiscountsOf, lineDiscAux, sub_zero, r2_zero, List.zip_cons_cons,
      List.zip_nil_right, List.foldl_cons, List.foldl_nil, uniformLineStep, if_true,
      max_eq_right hG, if_pos hrt, zero_add, r2_r2]
    norm_num [r2_zero]
  · rw [if_neg hcond]
    simp only [if_true, sub_zero, if_pos hrt, r2_r2]
    norm_num [r2_zero]

/-- **C5** (counterexample): for a negative gross (`G = -121`) the zero
discount is clamped to the negative subtotal, the taxable base collapses to
`0`, and `total = 0 ≠ r2 G`, so the claimed equalities fail without the
`G ≥ 0` restriction. -/
theorem claim_C5_counterexample :
    (calculateInvoiceTotals [⟨"", some 1, some (-121), none, none⟩] 0 (some 0) (some 10)
        true RoundingMode.total).total = 0 ∧
    (calculateInvoiceTotals [⟨"", some 1, some (-121), none, none⟩] 0 (some 0) (some 10)
        true RoundingMode.total).taxAmount = 0 ∧
    r2 (-121 : ℚ) = -121 ∧
    r2 ((-121 : ℚ) - (-121) / (1 + 10 / 100)) = -11 ∧
    (-121 : ℚ) < 0 ∧ (-11 : ℚ) < 0 := by
  refine ⟨?_, ?_, ?_, ?_, by norm_num, by norm_num⟩ <;>
    norm_num [calculateInvoiceTotals, lineGrossesOf, lineGross, toNum, finalDiscountOf,
      lineDiscountsOf, lineDiscAux, uniformLineStep, r2, jsRound, total_eq_line_iff]

/-- **C5** (witness): spec scenario 2 — `qty 1 × price 121`, `taxRate = 10`,
prices include tax. -/
theorem claim_C5_witness :
    (0 : ℚ) < 10 ∧ 0 ≤ lineGross ⟨"", some 1, some 121, none, none⟩ ∧
    (calculateInvoiceTotals [⟨"", some 1, some 121, none, none⟩] 0 (some 0) (some 10)
        true RoundingMode.line).taxAmount
      = r2 (lineGross ⟨"", some 1, some 121, none, none⟩
          - lineGross ⟨"", some 1, some 121, none, none⟩ / (1 + 10 / 100)) := by
  have h1 : (0 : ℚ) < 10 := by norm_num
  have h2 : 0 ≤ lineGross ⟨"", some 1, some 121, none, none⟩ := by
    norm_num [lineGross, toNum]
  exact ⟨h1, h2,
    (claim_C5_amended ⟨"", some 1, some 121, none, none⟩ 10 RoundingMode.line h1 h2).2.2.1⟩

/-! ## Helpers toward the self-consistency identity -/

theorem grosses_ne_nil_of_foldl_ne_zero {gs : List ℚ} (h : gs.foldl (· + ·) 0 ≠ 0) :
    gs ≠ [] := fun hn => h (by simp [hn])

theorem lineDiscountsOf_sum {fd : ℚ} (S : ℚ) (hfd : Cent fd) {gs : List ℚ}
    (hne : gs ≠ []) : (lineDiscountsOf fd S gs).sum = fd := by
  rw [lineDiscountsOf, lineDiscAux_sum fd S gs 0 cent_zero hne, sub_zero, r2_of_cent hfd]

theorem perLineDiscountsOf_sum (dp : ℚ) (dA : Option ℚ) {S : ℚ} {gs : List ℚ}
    (hfd : Cent (finalDiscountOf S dp dA)) (hne : gs ≠ []) :
    (perLineDiscountsOf (finalDiscountOf S dp dA) S gs).sum = finalDiscountOf S dp dA := by
  unfold perLineDiscountsOf
  by_cases hS : S = 0
  · subst hS
    rw [if_pos rfl, finalDiscountOf_subtotal_zero]
    simp
  · rw [if_neg hS, lineDiscAux_sum _ _ gs 0 cent_zero hne, sub_zero, r2_of_cent hfd]

theorem perLineDiscountsOf_cent (fd S : ℚ) (gs : List ℚ) :
    ∀ d ∈ perLineDiscountsOf fd S gs, Cent d := by
  unfold perLineDiscountsOf
  by_cases hS : S = 0
  · rw [if_pos hS]
    intro d hd
    obtain ⟨g, _, hg⟩ := List.mem_map.mp hd
    rw [← hg]
    exact cent_zero
  · rw [if_neg hS]
    exact lineDiscAux_cent fd S gs 0

theorem perLineDiscountsOf_length (fd S : ℚ) (gs : List ℚ) :
    (perLineDiscountsOf fd S gs).length = gs.length := by
  unfold perLineDiscountsOf
  by_cases hS : S = 0
  · rw [if_pos hS, List.length_map]
  · rw [if_neg hS, lineDiscAux_length]

theorem zip_clamp_facts {gs ds : List ℚ} (h2 : List.Forall₂ (fun g d => d ≤ g) gs ds)
    (hg : ∀ g ∈ gs, Cent g) (hd : ∀ d ∈ ds, Cent d) :
    ∀ x ∈ gs.zip ds, max 0 (x.1 - x.2) = x.1 - x.2 ∧ Cent (max 0 (x.1 - x.2)) := by
  intro x hx
  obtain ⟨g, d⟩ := x
  have hdg : d ≤ g := (List.forall₂_iff_zip.mp h2).2 hx
  have hmax : max 0 (g - d) = g - d := max_eq_right (sub_nonneg.mpr hdg)
  refine ⟨hmax, ?_⟩
  rw [hmax]
  exact cent_sub (hg g (List.of_mem_zip hx).1) (hd d (List.of_mem_zip hx).2)

theorem uniform_identity (items : List ItemInput) (dp : ℚ) (dA t : Option ℚ)
    (pit : Bool) (rm : RoundingMode)
    (hg : ∀ g ∈ lineGrossesOf items, Cent g)
    (hfd : Cent (finalDiscountOf (subtotalOf items) dp dA))
    (hclampU : List.Forall₂ (fun g d => d ≤ g) (lineGrossesOf items)
      (lineDiscountsOf (finalDiscountOf (subtotalOf items) dp dA) (subtotalOf items)
        (lineGrossesOf items))) :
    (pit = true →
       (calculateInvoiceTotals items dp dA t pit rm).total
         = (calculateInvoiceTotals items dp dA t pit rm).subtotal
           - (calculateInvoiceTotals items dp dA t pit rm).discountAmount) ∧
    (pit = false →
       (calculateInvoiceTotals items dp dA t pit rm).total
         = (calculateInvoiceTotals items dp dA t pit rm).subtotal
           - (calculateInvoiceTotals items dp dA t pit rm).discountAmount
           + (calculateInvoiceTotals items dp dA t pit rm).taxAmount) := by
  simp only [calculateInvoiceTotals]
  simp only [subtotalOf] at hfd hclampU
  set gs := lineGrossesOf items with hgs
  set rate := max 0 (toNum t) / 100 with hrate
  set S := gs.foldl (· + ·) 0 with hS
  set fd := finalDiscountOf S dp dA with hfdd
  have hcS : Cent S := by
    rw [hS, foldl_add_eq, zero_add]
    exact cent_list_sum hg
  have hr2S : r2 S = S := r2_of_cent hcS
  have hr2fd : r2 fd = fd := r2_of_cent hfd
  by_cases hcond : rm = RoundingMode.line ∧ 0 < S
  · rw [if_pos hcond]
    set ds := lineDiscountsOf fd S gs with hds
    have hne : gs ≠ [] := grosses_ne_nil_of_foldl_ne_zero (by rw [← hS]; exact ne_of_gt hcond.2)
    have hdsum : ds.sum = fd := lineDiscountsOf_sum S hfd hne
    have hdcent : ∀ d ∈ ds, Cent d := lineDiscAux_cent fd S gs 0
    have hzip := zip_clamp_facts hclampU hg hdcent
    have hfold := foldl_uniformLineStep rate pit (gs.zip ds) 0 0
    rw [hfold]
    have hadsum : ((gs.zip ds).map fun gd => max 0 (gd.1 - gd.2)).sum = S - fd := by
      rw [afterDiscount_sum hclampU, hdsum, hS, foldl_add_eq, zero_add]
    have hTaxCent : Cent ((gs.zip ds).map (uLineTax rate pit)).sum := by
      refine cent_list_sum fun x hx => ?_
      obtain ⟨gd, _, rfl⟩ := List.mem_map.mp hx
      exact cent_uLineTax rate pit gd
    cases pit with
    | true =>
      refine ⟨fun _ => ?_, fun h => by simp at h⟩
      have hTot : ((gs.zip ds).map (uLineTotal rate true)).sum = S - fd := by
        rw [List.map_congr_left fun gd hgd => uLineTotal_incl rate (hzip gd hgd).2, hadsum]
      simp only [zero_add, hTot, r2_r2, hr2S, hr2fd]
      rw [r2_of_cent (cent_sub hcS hfd)]
    | false =>
      refine ⟨fun h => by simp at h, fun _ => ?_⟩
      have hTot : ((gs.zip ds).map (uLineTotal rate false)).sum
          = (S - fd) + ((gs.zip ds).map (uLineTax rate false)).sum := by
        rw [map_sum_split fun gd hgd => uLineTotal_excl rate (hzip gd hgd).2, hadsum]
      simp only [zero_add, hTot, r2_r2, hr2S, hr2fd]
      rw [r2_of_cent (cent_add (cent_sub hcS hfd) hTaxCent), r2_of_cent hTaxCent]
  · rw [if_neg hcond]
    cases pit with
    | true =>
      refine ⟨fun _ => ?_, fun h => by simp at h⟩
      simp only [if_true, r2_r2, hr2S, hr2fd]
      rw [r2_of_cent (cent_sub hcS hfd)]
    | false =>
      refine ⟨fun h => by simp at h, fun _ => ?_⟩
      simp only [Bool.false_eq_true, if_false, r2_r2, hr2S, hr2fd]
      rw [r2_of_cent (cent_add (cent_sub hcS hfd) (cent_r2 _))]

theorem zip_map_snd_max :
    ∀ (items : List ItemInput) (p : List (ℚ × ℚ)), p.length ≤ items.length →
      (items.zip p).map (fun x => max 0 (x.2.1 - x.2.2))
        = p.map fun y => max 0 (y.1 - y.2) := by
  intro items
  induction items with
  | nil =>
    intro p hp
    cases p with
    | nil => rfl
    | cons q ps => simp at hp
  | cons it its ih =>
    intro p hp
    cases p with
    | nil => rfl
    | cons q ps =>
      simp only [List.zip_cons_cons, List.map_cons]
      rw [ih ps (by simpa using hp)]

theorem perline_identity (items : List ItemInput) (dp : ℚ) (dA : Option ℚ)
    (pit : Bool) (rm : RoundingMode)
    (hg : ∀ g ∈ lineGrossesOf items, Cent g)
    (hfd : Cent (finalDiscountOf (subtotalOf items) dp dA))
    (hclampP : List.Forall₂ (fun g d => d ≤ g) (lineGrossesOf items)
      (perLineDiscountsOf (finalDiscountOf (subtotalOf items) dp dA) (subtotalOf items)
        (lineGrossesOf items))) :
    (pit = true →
       (calculatePerLineTotals items dp dA pit rm).total
         = (calculatePerLineTotals items dp dA pit rm).subtotal
           - (calculatePerLineTotals items dp dA pit rm).discountAmount) ∧
    (pit = false →
       (calculatePerLineTotals items dp dA pit rm).total
         = (calculatePerLineTotals items dp dA pit rm).subtotal
           - (calculatePerLineTotals items dp dA pit rm).discountAmount
           + (calculatePerLineTotals items dp dA pit rm).taxAmount) := by
  by_cases hitems : items = []
  · subst hitems
    simp only [calculatePerLineTotals, lineGrossesOf, List.map_nil, List.foldl_nil,
      finalDiscountOf_subtotal_zero, perLineDiscountsOf, if_pos rfl, List.zip_nil_left,
      perLineLoop, r2_zero]
    constructor <;> intro _ <;> norm_num
  · simp only [calculatePerLineTotals]
    simp only [subtotalOf] at hfd hclampP
    set gs := lineGrossesOf items with hgs
    set S := gs.foldl (· + ·) 0 with hS
    set fd := finalDiscountOf S dp dA with hfdd
    set ds := perLineDiscountsOf fd S gs with hds
    set L := items.zip (gs.zip ds) with hL
    set st := perLineLoop pit 0 0 [] L with hst
    have hcS : Cent S := by
      rw [hS, foldl_add_eq, zero_add]
      exact cent_list_sum hg
    have hr2S : r2 S = S := r2_of_cent hcS
    have hr2fd : r2 fd = fd := r2_of_cent hfd
    have hne : gs ≠ [] := by
      rw [hgs]
      intro h
      exact hitems (List.map_eq_nil_iff.mp h)
    have hdcent : ∀ d ∈ ds, Cent d := perLineDiscountsOf_cent fd S gs
    have hzip := zip_clamp_facts hclampP hg hdcent
    have hdsum : ds.sum = fd := perLineDiscountsOf_sum dp dA hfd hne
    have hL2 : ∀ x ∈ L, Cent (max 0 (x.2.1 - x.2.2)) := by
      intro x hx
      exact (hzip x.2 (List.of_mem_zip hx).2).2
    have hplen : (gs.zip ds).length ≤ items.length := by
      rw [List.length_zip, hds, perLineDiscountsOf_length, min_self, hgs,
        lineGrossesOf, List.length_map]
    have hmapsum : (L.map fun x => max 0 (x.2.1 - x.2.2)).sum = S - fd := by
      rw [hL, zip_map_snd_max items (gs.zip ds) hplen, afterDiscount_sum hclampP,
        hdsum, hS, foldl_add_eq, zero_add]
    obtain ⟨hctot, htot⟩ := perLineLoop_total pit L 0 0 []
      (fun e he => absurd he (List.not_mem_nil e)) cent_zero cent_zero hL2
    obtain ⟨s1, s2, s3, s4, s5, s6⟩ :=
      perLineLoop_spec pit L 0 0 [] (fun e he => absurd he (List.not_mem_nil e)) cent_zero
    rw [← hst] at hctot htot s2
    rw [hmapsum] at htot
    cases pit with
    | true =>
      refine ⟨fun _ => ?_, fun h => by simp at h⟩
      simp only [if_true] at htot
      rw [r2_of_cent hctot, htot, hr2S, hr2fd]
      ring
    | false =>
      refine ⟨fun h => by simp at h, fun _ => ?_⟩
      simp only [Bool.false_eq_true, if_false] at htot
      rw [r2_of_cent hctot, htot, hr2S, hr2fd, r2_of_cent s2]
      ring

/-- **C1** (amended): the identity `total = subtotal - discountAmount
(+ taxAmount when prices exclude tax)` holds for both engines provided every
line gross and the effective discount are whole multiples of `0.01` and no
line's allocated discount exceeds its gross amount; sub-cent inputs or an
over-allocated line can break it by a cent. -/
theorem claim_C1_amended (items : List ItemInput) (dp : ℚ) (dA t : Option ℚ)
    (pit : Bool) (rm : RoundingMode)
    (hg : ∀ g ∈ lineGrossesOf items, Cent g)
    (hfd : Cent (finalDiscountOf (subtotalOf items) dp dA))
    (hclampU : List.Forall₂ (fun g d => d ≤ g) (lineGrossesOf items)
      (lineDiscountsOf (finalDiscountOf (subtotalOf items) dp dA) (subtotalOf items)
        (lineGrossesOf items)))
    (hclampP : List.Forall₂ (fun g d => d ≤ g) (lineGrossesOf items)
      (perLineDiscountsOf (finalDiscountOf (subtotalOf items) dp dA) (subtotalOf items)
        (lineGrossesOf items))) :
    ((pit = true →
        (calculateInvoiceTotals items dp dA t pit rm).total
          = (calculateInvoiceTotals items dp dA t pit rm).subtotal
            - (calculateInvoiceTotals items dp dA t pit rm).discountAmount) ∧
     (pit = false →
        (calculateInvoiceTotals items dp dA t pit rm).total
          = (calculateInvoiceTotals items dp dA t pit rm).subtotal
            - (calculateInvoiceTotals items dp dA t pit rm).discountAmount
            + (calculateInvoiceTotals items dp dA t pit rm).taxAmount)) ∧
    ((pit = true →
        (calculatePerLineTotals items dp dA pit rm).total
          = (calculatePerLineTotals items dp dA pit rm).subtotal
            - (calculatePerLineTotals items dp dA pit rm).discountAmount) ∧
     (pit = false →
        (calculatePerLineTotals items dp dA pit rm).total
          = (calculatePerLineTotals items dp dA pit rm).subtotal
            - (calculatePerLineTotals items dp dA pit rm).discountAmount
            + (calculatePerLineTotals items dp dA pit rm).taxAmount)) :=
  ⟨uniform_identity items dp dA t pit rm hg hfd hclampU,
   perline_identity items dp dA pit rm hg hfd hclampP⟩

/-- **C1** (counterexample): with a line gross of `0.005` and a discount of
`0.001`, the uniform engine in `"total"` mode returns `total = 0` but
`subtotal - discountAmount + taxAmount = 0.01`; two lines of gross `0.004`
do the same to the per-line engine. -/
theorem claim_C1_counterexample :
    ((calculateInvoiceTotals [⟨"", some 1, some (1/200), none, none⟩] 0 (some (1/1000))
        (some 0) false RoundingMode.total).total = 0 ∧
     (calculateInvoiceTotals [⟨"", some 1, some (1/200), none, none⟩] 0 (some (1/1000))
          (some 0) false RoundingMode.total).subtotal
        - (calculateInvoiceTotals [⟨"", some 1, some (1/200), none, none⟩] 0 (some (1/1000))
          (some 0) false RoundingMode.total).discountAmount
        + (calculateInvoiceTotals [⟨"", some 1, some (1/200), none, none⟩] 0 (some (1/1000))
          (some 0) false RoundingMode.total).taxAmount = 1/100) ∧
    ((calculatePerLineTotals [⟨"", some 1, some (1/250), none, none⟩,
        ⟨"", some 1, some (1/250), none, none⟩] 0 (some 0) false RoundingMode.line).total = 0 ∧
     (calculatePerLineTotals [⟨"", some 1, some (1/250), none, none⟩,
          ⟨"", some 1, some (1/250), none, none⟩] 0 (some 0) false RoundingMode.line).subtotal
        - (calculatePerLineTotals [⟨"", some 1, some (1/250), none, none⟩,
          ⟨"", some 1, some (1/250), none, none⟩] 0 (some 0) false RoundingMode.line).discountAmount
        + (calculatePerLineTotals [⟨"", some 1, some (1/250), none, none⟩,
          ⟨"", some 1, some (1/250), none, none⟩] 0 (some 0) false
          RoundingMode.line).taxAmount = 1/100) ∧
    (0 : ℚ) < 1/100 := by
  refine ⟨⟨?_, ?_⟩, ⟨?_, ?_⟩, by norm_num⟩ <;>
    norm_num [calculateInvoiceTotals, calculatePerLineTotals, lineGrossesOf, lineGross,
      toNum, finalDiscountOf, perLineDiscountsOf, lineDiscountsOf, lineDiscAux,
      uniformLineStep, perLineLoop, taxLoop, summaryGet, summarySet, r2, jsRound,
      total_eq_line_iff]

/-- **C1** (witness): grosses `[2, 3]`, discount `1`, prices excluding tax:
the identity holds in both engines. -/
theorem claim_C1_witness :
    ((calculateInvoiceTotals [⟨"", some 1, some 2, none, none⟩,
        ⟨"", some 1, some 3, none, none⟩] 0 (some 1) (some 0) false RoundingMode.line).total
      = (calculateInvoiceTotals [⟨"", some 1, some 2, none, none⟩,
          ⟨"", some 1, some 3, none, none⟩] 0 (some 1) (some 0) false
          RoundingMode.line).subtotal
        - (calculateInvoiceTotals [⟨"", some 1, some 2, none, none⟩,
          ⟨"", some 1, some 3, none, none⟩] 0 (some 1) (some 0) false
          RoundingMode.line).discountAmount
        + (calculateInvoiceTotals [⟨"", some 1, some 2, none, none⟩,
          ⟨"", some 1, some 3, none, none⟩] 0 (some 1) (some 0) false
          RoundingMode.line).taxAmount) ∧
    ((calculatePerLineTotals [⟨"", some 1, some 2, none, none⟩,
        ⟨"", some 1, some 3, none, none⟩] 0 (some 1) false RoundingMode.line).total
      = (calculatePerLineTotals [⟨"", some 1, some 2, none, none⟩,
          ⟨"", some 1, some 3, none, none⟩] 0 (some 1) false RoundingMode.line).subtotal
        - (calculatePerLineTotals [⟨"", some 1, some 2, none, none⟩,
          ⟨"", some 1, some 3, none, none⟩] 0 (some 1) false
          RoundingMode.line).discountAmount
        + (calculatePerLineTotals [⟨"", some 1, some 2, none, none⟩,
          ⟨"", some 1, some 3, none, none⟩] 0 (some 1) false
          RoundingMode.line).taxAmount) := by
  have hg : ∀ g ∈ lineGrossesOf [⟨"", some 1, some 2, none, none⟩,
      ⟨"", some 1, some 3, none, none⟩], Cent g := by
    intro g hgmem
    norm_num [lineGrossesOf, lineGross, toNum] at hgmem
    rcases hgmem with rfl | rfl
    · exact ⟨200, by norm_num⟩
    · exact ⟨300, by norm_num⟩
  have hfdval : finalDiscountOf (subtotalOf [⟨"", some 1, some 2, none, none⟩,
      ⟨"", some 1, some 3, none, none⟩]) 0 (some 1) = 1 := by
    norm_num [finalDiscountOf, subtotalOf, lineGrossesOf, lineGross, toNum]
  have hfd : Cent (finalDiscountOf (subtotalOf [⟨"", some 1, some 2, none, none⟩,
      ⟨"", some 1, some 3, none, none⟩]) 0 (some 1)) := by
    rw [hfdval]
    exact ⟨100, by norm_num⟩
  have hgsval : lineGrossesOf [⟨"", some 1, some 2, none, none⟩,
      ⟨"", some 1, some 3, none, none⟩] = [2, 3] := by
    norm_num [lineGrossesOf, lineGross, toNum]
  have hdsval : lineDiscountsOf (finalDiscountOf (subtotalOf
        [⟨"", some 1, some 2, none, none⟩, ⟨"", some 1, some 3, none, none⟩]) 0 (some 1))
      (subtotalOf [⟨"", some 1, some 2, none, none⟩, ⟨"", some 1, some 3, none, none⟩])
      (lineGrossesOf [⟨"", some 1, some 2, none, none⟩, ⟨"", some 1, some 3, none, none⟩])
      = [2/5, 3/5] := by
    norm_num [lineDiscountsOf, lineDiscAux, finalDiscountOf, subtotalOf, lineGrossesOf,
      lineGross, toNum, r2, jsRound]
  have hSne : subtotalOf [⟨"", some 1, some 2, none, none⟩,
      ⟨"", some 1, some 3, none, none⟩] = 5 := by
    norm_num [subtotalOf, lineGrossesOf, lineGross, toNum]
  have hpdsval : perLineDiscountsOf (finalDiscountOf (subtotalOf
        [⟨"", some 1, some 2, none, none⟩, ⟨"", some 1, some 3, none, none⟩]) 0 (some 1))
      (subtotalOf [⟨"", some 1, some 2, none, none⟩, ⟨"", some 1, some 3, none, none⟩])
      (lineGrossesOf [⟨"", some 1, some 2, none, none⟩, ⟨"", some 1, some 3, none, none⟩])
      = [2/5, 3/5] := by
    rw [perLineDiscountsOf, if_neg (by rw [hSne]; norm_num)]
    norm_num [lineDiscAux, finalDiscountOf, subtotalOf, lineGrossesOf,
      lineGross, toNum, r2, jsRound]
  have hU : List.Forall₂ (fun g d => d ≤ g)
      (lineGrossesOf [⟨"", some 1, some 2, none, none⟩, ⟨"", some 1, some 3, none, none⟩])
      (lineDiscountsOf (finalDiscountOf (subtotalOf [⟨"", some 1, some 2, none, none⟩,
          ⟨"", some 1, some 3, none, none⟩]) 0 (some 1))
        (subtotalOf [⟨"", some 1, some 2, none, none⟩, ⟨"", some 1, some 3, none, none⟩])
        (lineGrossesOf [⟨"", some 1, some 2, none, none⟩,
          ⟨"", some 1, some 3, none, none⟩])) := by
    rw [hdsval, hgsval]
    exact List.Forall₂.cons (by norm_num) (List.Forall₂.cons (by norm_num) List.Forall₂.nil)
  have hP : List.Forall₂ (fun g d => d ≤ g)
      (lineGrossesOf [⟨"", some 1, some 2, none, none⟩, ⟨"", some 1, some 3, none, none⟩])
      (perLineDiscountsOf (finalDiscountOf (subtotalOf [⟨"", some 1, some 2, none, none⟩,
          ⟨"", some 1, some 3, none, none⟩]) 0 (some 1))
        (subtotalOf [⟨"", some 1, some 2, none, none⟩, ⟨"", some 1, some 3, none, none⟩])
        (lineGrossesOf [⟨"", some 1, some 2, none, none⟩,
          ⟨"", some 1, some 3, none, none⟩])) := by
    rw [hpdsval, hgsval]
    exact List.Forall₂.cons (by norm_num) (List.Forall₂.cons (by norm_num) List.Forall₂.nil)
  have h := claim_C1_amended [⟨"", some 1, some 2, none, none⟩,
    ⟨"", some 1, some 3, none, none⟩] 0 (some 1) (some 0) false RoundingMode.line
    hg hfd hU hP
  exact ⟨h.1.2 rfl, h.2.2 rfl⟩
